import Mathlib

/-!
Shallow embedding of `src/lightrag/rag_manager.py` (class `RAGManager`).

The pool state is the pair of Python dicts `rag_instances` and
`course_access_count`, modelled as insertion-ordered association lists
(Python 3.7+ dicts iterate in insertion order; assignment to an existing
key keeps its position, `del` removes the single entry, a fresh key is
appended at the end).  A live `LightRAG` engine is abstracted to a creation
serial number (`Nat`); its internals are out of scope.  The asynchronous
environment is injected explicitly: each operation takes Booleans saying
whether `LightRAG(...)` / `initialize_storages()` would raise for this call
(`constructFails`) and whether the eviction victim's `finalize_storages()`
would raise (`victimFinalizeFails`); `cleanup` takes a per-tenant finalize
outcome.  Exceptions are modelled with `Except`; every operation returns
the (possibly mutated) state alongside its result, since Python mutations
made before a raise persist.  Calls to `logger` are recorded in a `logs`
field, and every attempt to construct an engine is recorded in the ghost
field `constructAttempts` (used to state that a tenant is never
constructed).  Since every membership mutation happens under the single
`_initialization_lock` and the lock is FIFO, concurrent `initialize_course`
tasks (as spawned by `preload_courses`) are modelled as running in task
creation order.
-/

namespace ConversationKT

/-- Exceptions that `RAGManager` methods can raise in the model:
`constructionFailure` for a raise out of `LightRAG(**kwargs)` /
`initialize_storages()`, `finalizationFailure` for a raise out of the
eviction victim's `finalize_storages()`, `emptyMinError` for Python's
`ValueError` when `min()` is applied to an empty dict, and `keyError` for
a dict lookup of a missing key. -/
inductive PoolError where
  | constructionFailure (id : String)
  | finalizationFailure (id : String)
  | emptyMinError
  | keyError (id : String)
  deriving DecidableEq, Repr

instance exceptDecEq {ε α : Type} [DecidableEq ε] [DecidableEq α] :
    DecidableEq (Except ε α) := fun a b =>
  match a, b with
  | .ok x, .ok y =>
    if h : x = y then .isTrue (by rw [h]) else .isFalse (by simp [h])
  | .ok _, .error _ => .isFalse (by simp)
  | .error _, .ok _ => .isFalse (by simp)
  | .error x, .error y =>
    if h : x = y then .isTrue (by rw [h]) else .isFalse (by simp [h])

/-- Events recorded by the `logger` calls in `rag_manager.py`. -/
inductive LogEvent where
  | initializedCourse (id : String)
  | preloaded (n : Nat)
  | switchFailed (id : String)
  | cleanedUp (id : String)
  | cleanupFailed (id : String)
  deriving DecidableEq, Repr

/-- The state of a `RAGManager` object: `rag_instances` maps a course id to
its live engine (a creation serial), `course_access_count` maps a course id
to its access counter; both are insertion-ordered association lists
mirroring Python dicts.  `nextSerial` numbers engine creations, `logs` and
`constructAttempts` are observation ghosts. -/
structure RAGManager where
  rag_instances : List (String × Nat)
  max_preloaded : Nat
  course_access_count : List (String × Nat)
  nextSerial : Nat
  logs : List LogEvent
  constructAttempts : List String
  deriving DecidableEq, Repr

/-- `RAGManager.__init__`: both dicts start empty. -/
def mkRAGManager (max_preloaded : Nat) : RAGManager :=
  { rag_instances := [], max_preloaded := max_preloaded,
    course_access_count := [], nextSerial := 0, logs := [],
    constructAttempts := [] }

/-- Dict lookup `l[k]` (first matching key; an association list built by the
operations below has distinct keys). -/
def alookup {α : Type} : List (String × α) → String → Option α
  | [], _ => none
  | p :: l, k => if p.1 = k then some p.2 else alookup l k

/-- Python's `k in d`. -/
def hasKey {α : Type} (l : List (String × α)) (k : String) : Bool :=
  (alookup l k).isSome

/-- The key list of a dict, in insertion order. -/
def keys {α : Type} (l : List (String × α)) : List String :=
  l.map Prod.fst

/-- Python's `del d[k]`: remove the (first) entry with key `k`. -/
def eraseKey {α : Type} : List (String × α) → String → List (String × α)
  | [], _ => []
  | p :: l, k => if p.1 = k then l else p :: eraseKey l k

/-- Python's `d[k] = v`: overwrite in place when the key exists (keeping its
position in the iteration order), append at the end otherwise. -/
def dictSet {α : Type} : List (String × α) → String → α → List (String × α)
  | [], k, v => [(k, v)]
  | p :: l, k, v => if p.1 = k then (k, v) :: l else p :: dictSet l k v

/-- Python's `min(d.items(), key=lambda x: x[1])`: the first entry, in
iteration order, whose count is minimal (`min` replaces its running best
only on a strictly smaller key, so the earliest minimal entry wins);
`none` models the `ValueError` on an empty dict. -/
def minByCount : List (String × Nat) → Option (String × Nat)
  | [] => none
  | x :: l =>
    match minByCount l with
    | none => some x
    | some b => some (if b.2 < x.2 then b else x)

/-- Lines 106–110 of `initialize_course`: when the pool has reached
`max_preloaded`, pick `least_used` as the minimal-count entry of
`course_access_count`, await its `finalize_storages()` (which may raise),
then delete it from both dicts.  A raise leaves the state untouched
because the `del` statements come after the `await`. -/
def evictIfNeeded (m : RAGManager) (victimFinalizeFails : Bool) :
    Except PoolError RAGManager :=
  if m.max_preloaded ≤ m.rag_instances.length then
    match minByCount m.course_access_count with
    | none => .error .emptyMinError
    | some lu =>
      if hasKey m.rag_instances lu.1 then
        if victimFinalizeFails then .error (.finalizationFailure lu.1)
        else .ok { m with
          rag_instances := eraseKey m.rag_instances lu.1,
          course_access_count := eraseKey m.course_access_count lu.1 }
      else .error (.keyError lu.1)
  else .ok m

/-- `RAGManager.initialize_course` (body of the `async with` block): return
the existing instance if resident; otherwise evict if at capacity, then
construct and register the new engine with access count 0.  A construction
failure propagates and registers nothing (the kwargs merging touches no
shared state and is omitted: no claim depends on it). -/
def initialize_course (m : RAGManager) (course_id : String)
    (constructFails : Bool) (victimFinalizeFails : Bool) :
    Except PoolError Nat × RAGManager :=
  match alookup m.rag_instances course_id with
  | some eng => (.ok eng, m)
  | none =>
    match evictIfNeeded m victimFinalizeFails with
    | .error e => (.error e, m)
    | .ok m1 =>
      let m2 := { m1 with
        constructAttempts := m1.constructAttempts ++ [course_id] }
      if constructFails then (.error (.constructionFailure course_id), m2)
      else
        (.ok m2.nextSerial, { m2 with
          rag_instances := dictSet m2.rag_instances course_id m2.nextSerial,
          course_access_count := dictSet m2.course_access_count course_id 0,
          nextSerial := m2.nextSerial + 1,
          logs := m2.logs ++ [.initializedCourse course_id] })

/-- `RAGManager.get_rag`: ensure residence via `initialize_course` when the
course is absent (a failure propagates before the counter update), then
`course_access_count[id] = course_access_count.get(id, 0) + 1` and return
`rag_instances[id]`. -/
def get_rag (m : RAGManager) (course_id : String)
    (constructFails : Bool) (victimFinalizeFails : Bool) :
    Except PoolError Nat × RAGManager :=
  let step1 : Except PoolError Unit × RAGManager :=
    if hasKey m.rag_instances course_id then (.ok (), m)
    else
      match initialize_course m course_id constructFails victimFinalizeFails with
      | (.error e, m1) => (.error e, m1)
      | (.ok _, m1) => (.ok (), m1)
  match step1 with
  | (.error e, m1) => (.error e, m1)
  | (.ok _, m1) =>
    let m2 := { m1 with
      course_access_count := dictSet m1.course_access_count course_id
        ((alookup m1.course_access_count course_id).getD 0 + 1) }
    match alookup m2.rag_instances course_id with
    | some eng => (.ok eng, m2)
    | none => (.error (.keyError course_id), m2)

/-- The `asyncio.gather` over the `initialize_course` tasks spawned by
`preload_courses`: every task runs to completion (gather does not cancel
siblings), admissions serialize through the FIFO lock in task creation
order, and the first raised exception becomes gather's own result. -/
def gatherEnsures (outs : Nat → Bool × Bool) :
    RAGManager → List String → Nat → Option PoolError →
    Option PoolError × RAGManager
  | m, [], _, err => (err, m)
  | m, id :: rest, i, err =>
    let r := initialize_course m id (outs i).1 (outs i).2
    gatherEnsures outs r.2 rest (i + 1)
      (err <|> match r.1 with | .ok _ => none | .error e => some e)

/-- `RAGManager.preload_courses`: truncate the id list to `max_preloaded`,
spawn an `initialize_course` task per retained id, gather them; the
success log line runs only when gather did not raise. -/
def preload_courses (m : RAGManager) (course_ids : List String)
    (outs : Nat → Bool × Bool) : Except PoolError Unit × RAGManager :=
  let retained := course_ids.take m.max_preloaded
  match gatherEnsures outs m retained 0 none with
  | (some e, m1) => (.error e, m1)
  | (none, m1) =>
    (.ok (), { m1 with logs := m1.logs ++ [.preloaded retained.length] })

/-- `RAGManager.switch_course`: `try: await get_rag(...); return True` with
a catch-all `except Exception` that logs and returns `False`. -/
def switch_course (m : RAGManager) (course_id : String)
    (constructFails : Bool) (victimFinalizeFails : Bool) :
    Bool × RAGManager :=
  match get_rag m course_id constructFails victimFinalizeFails with
  | (.ok _, m1) => (true, m1)
  | (.error _, m1) =>
    (false, { m1 with logs := m1.logs ++ [.switchFailed course_id] })

/-- `RAGManager.cleanup`: for each resident course try
`finalize_storages()`, logging success or failure per tenant (the
`except` swallows the exception), then clear both dicts unconditionally.
The method returns normally on every input. -/
def cleanup (m : RAGManager) (finalizeFails : String → Bool) : RAGManager :=
  { m with
    rag_instances := [],
    course_access_count := [],
    logs := m.logs ++ m.rag_instances.map (fun p =>
      if finalizeFails p.1 then LogEvent.cleanupFailed p.1
      else LogEvent.cleanedUp p.1) }

/-- One completed public pool operation together with the injected
environment outcomes for the engine calls it makes. -/
inductive PoolOp where
  | getOp (id : String) (constructFails victimFinalizeFails : Bool)
  | preloadOp (ids : List String) (outs : Nat → Bool × Bool)
  | switchOp (id : String) (constructFails victimFinalizeFails : Bool)
  | cleanupOp (finalizeFails : String → Bool)

/-- The state after one completed operation (results are discarded). -/
def applyOp (m : RAGManager) : PoolOp → RAGManager
  | .getOp id cF vF => (get_rag m id cF vF).2
  | .preloadOp ids outs => (preload_courses m ids outs).2
  | .switchOp id cF vF => (switch_course m id cF vF).2
  | .cleanupOp fF => cleanup m fF

/-- The state after a sequence of completed operations. -/
def runOps (m : RAGManager) (ops : List PoolOp) : RAGManager :=
  ops.foldl applyOp m

/-- The bookkeeping invariant of a `RAGManager` state: the two dicts hold
exactly the same keys in the same insertion order, the keys are distinct,
and the pool is within capacity. -/
abbrev goodState (m : RAGManager) : Prop :=
  keys m.rag_instances = keys m.course_access_count ∧
  (keys m.rag_instances).Nodup ∧
  m.rag_instances.length ≤ m.max_preloaded

/-! ### Lemmas about the dict operations -/

@[simp] theorem keys_nil {α : Type} : keys ([] : List (String × α)) = [] := rfl

@[simp] theorem keys_cons {α : Type} (p : String × α) (l : List (String × α)) :
    keys (p :: l) = p.1 :: keys l := rfl

@[simp] theorem keys_append {α : Type} (l₁ l₂ : List (String × α)) :
    keys (l₁ ++ l₂) = keys l₁ ++ keys l₂ := by
  simp [keys]

theorem alookup_eq_none_iff {α : Type} (l : List (String × α)) (k : String) :
    alookup l k = none ↔ k ∉ keys l := by
  induction l with
  | nil => simp [alookup]
  | cons p l ih =>
    by_cases h : p.1 = k
    · simp [alookup, h]
    · simp only [alookup, if_neg h, keys_cons, List.mem_cons, ih]
      constructor
      · intro hk hor
        rcases hor with hk₁ | hk₁
        · exact h hk₁.symm
        · exact hk hk₁
      · intro hk hk₁
        exact hk (Or.inr hk₁)

theorem alookup_isSome_iff {α : Type} (l : List (String × α)) (k : String) :
    (alookup l k).isSome = true ↔ k ∈ keys l := by
  rw [Option.isSome_iff_ne_none]
  exact not_iff_comm.mp (alookup_eq_none_iff l k).symm

theorem hasKey_iff_mem {α : Type} (l : List (String × α)) (k : String) :
    hasKey l k = true ↔ k ∈ keys l := alookup_isSome_iff l k

theorem hasKey_eq_false_iff {α : Type} (l : List (String × α)) (k : String) :
    hasKey l k = false ↔ k ∉ keys l := by
  rw [← hasKey_iff_mem l k]
  simp

theorem keys_eraseKey {α : Type} (l : List (String × α)) (k : String) :
    keys (eraseKey l k) = (keys l).erase k := by
  induction l with
  | nil => simp [eraseKey]
  | cons p l ih =>
    by_cases h : p.1 = k
    · simp [eraseKey, h, List.erase_cons]
    · simp [eraseKey, h, List.erase_cons, ih]

theorem keys_dictSet_of_mem {α : Type} (l : List (String × α)) (k : String)
    (v : α) (h : k ∈ keys l) : keys (dictSet l k v) = keys l := by
  induction l with
  | nil => simp at h
  | cons p l ih =>
    by_cases hp : p.1 = k
    · simp [dictSet, hp]
    · have hmem : k ∈ keys l := by
        rcases List.mem_cons.mp (by simpa using h) with h₁ | h₁
        · exact absurd h₁.symm hp
        · exact h₁
      simp [dictSet, hp, ih hmem]

theorem dictSet_of_not_mem {α : Type} (l : List (String × α)) (k : String)
    (v : α) (h : k ∉ keys l) : dictSet l k v = l ++ [(k, v)] := by
  induction l with
  | nil => simp [dictSet]
  | cons p l ih =>
    have hp : p.1 ≠ k := by
      intro hk
      exact h (by simp [hk])
    have hmem : k ∉ keys l := by
      intro hk
      exact h (by simp [hk])
    simp [dictSet, hp, ih hmem]

theorem mem_keys_dictSet {α : Type} (l : List (String × α)) (k : String)
    (v : α) : k ∈ keys (dictSet l k v) := by
  induction l with
  | nil => simp [dictSet]
  | cons p l ih =>
    by_cases hp : p.1 = k
    · simp [dictSet, hp]
    · simp only [dictSet, if_neg hp, keys_cons, List.mem_cons]
      exact Or.inr ih

theorem length_eraseKey_of_mem {α : Type} (l : List (String × α)) (k : String)
    (h : k ∈ keys l) : (eraseKey l k).length + 1 = l.length := by
  induction l with
  | nil => simp at h
  | cons p l ih =>
    by_cases hp : p.1 = k
    · simp [eraseKey, hp]
    · have hmem : k ∈ keys l := by
        rcases List.mem_cons.mp (by simpa using h) with h₁ | h₁
        · exact absurd h₁.symm hp
        · exact h₁
      simp [eraseKey, hp, ih hmem]

theorem minByCount_eq_none_iff (l : List (String × Nat)) :
    minByCount l = none ↔ l = [] := by
  cases l with
  | nil => simp [minByCount]
  | cons x l =>
    simp only [minByCount]
    cases minByCount l <;> simp

theorem minByCount_spec (l : List (String × Nat)) (v : String × Nat)
    (h : minByCount l = some v) :
    ∃ pre post, l = pre ++ v :: post ∧ (∀ p ∈ pre, v.2 < p.2) ∧
      ∀ p ∈ post, v.2 ≤ p.2 := by
  induction l generalizing v with
  | nil => simp [minByCount] at h
  | cons x l ih =>
    simp only [minByCount] at h
    cases hl : minByCount l with
    | none =>
      rw [hl] at h
      obtain rfl : x = v := by simpa using h
      obtain rfl : l = [] := (minByCount_eq_none_iff l).mp hl
      exact ⟨[], [], by simp⟩
    | some b =>
      rw [hl] at h
      have hv : v = if b.2 < x.2 then b else x := by
        have := Option.some_injective _ h
        exact this.symm
      obtain ⟨pre, post, hsplit, hpre, hpost⟩ := ih b hl
      by_cases hlt : b.2 < x.2
      · rw [if_pos hlt] at hv
        subst hv
        refine ⟨x :: pre, post, by simp [hsplit], ?_, hpost⟩
        intro p hp
        rcases List.mem_cons.mp hp with rfl | hp
        · exact hlt
        · exact hpre p hp
      · rw [if_neg hlt] at hv
        subst hv
        refine ⟨[], l, by simp, by simp, ?_⟩
        intro p hp
        have hxb : v.2 ≤ b.2 := Nat.le_of_not_lt hlt
        rw [hsplit] at hp
        rcases List.mem_append.mp hp with hp | hp
        · exact le_of_lt (lt_of_le_of_lt hxb (hpre p hp))
        · rcases List.mem_cons.mp hp with rfl | hp
          · exact hxb
          · exact le_trans hxb (hpost p hp)

theorem minByCount_mem (l : List (String × Nat)) (v : String × Nat)
    (h : minByCount l = some v) : v ∈ l := by
  obtain ⟨pre, post, hsplit, -, -⟩ := minByCount_spec l v h
  rw [hsplit]
  simp

/-! ### Branch characterizations of the pool operations -/

theorem evictIfNeeded_not_full (m : RAGManager) (vF : Bool)
    (h : m.rag_instances.length < m.max_preloaded) :
    evictIfNeeded m vF = .ok m := by
  unfold evictIfNeeded
  rw [if_neg (Nat.not_le_of_lt h)]

theorem evictIfNeeded_empty (m : RAGManager) (vF : Bool)
    (hcap : m.max_preloaded ≤ m.rag_instances.length)
    (hcac : m.course_access_count = []) :
    evictIfNeeded m vF = .error .emptyMinError := by
  unfold evictIfNeeded
  rw [if_pos hcap, hcac]
  rfl

theorem evictIfNeeded_full_fail (m : RAGManager) (lu : String × Nat)
    (hcap : m.max_preloaded ≤ m.rag_instances.length)
    (hmin : minByCount m.course_access_count = some lu)
    (hk : hasKey m.rag_instances lu.1 = true) :
    evictIfNeeded m true = .error (.finalizationFailure lu.1) := by
  unfold evictIfNeeded
  rw [if_pos hcap, hmin]
  simp [hk]

theorem evictIfNeeded_full_ok (m : RAGManager) (lu : String × Nat)
    (hcap : m.max_preloaded ≤ m.rag_instances.length)
    (hmin : minByCount m.course_access_count = some lu)
    (hk : hasKey m.rag_instances lu.1 = true) :
    evictIfNeeded m false = .ok { m with
      rag_instances := eraseKey m.rag_instances lu.1,
      course_access_count := eraseKey m.course_access_count lu.1 } := by
  unfold evictIfNeeded
  rw [if_pos hcap, hmin]
  simp [hk]

theorem evictIfNeeded_ok_spec (m : RAGManager) (vF : Bool) (m1 : RAGManager)
    (hg : goodState m) (h : evictIfNeeded m vF = .ok m1) :
    keys m1.rag_instances = keys m1.course_access_count ∧
    (keys m1.rag_instances).Nodup ∧
    m1.rag_instances.length < m.max_preloaded ∧
    m1.max_preloaded = m.max_preloaded ∧
    (∀ k, k ∈ keys m1.rag_instances → k ∈ keys m.rag_instances) ∧
    m1.nextSerial = m.nextSerial ∧
    m1.constructAttempts = m.constructAttempts ∧ m1.logs = m.logs := by
  obtain ⟨hkeys, hnd, hlen⟩ := hg
  unfold evictIfNeeded at h
  split at h
  · rename_i hcap
    split at h
    · exact absurd h (by simp)
    · rename_i lu hmin
      split at h
      · rename_i hk
        split at h
        · exact absurd h (by simp)
        · have hm1 : ({ m with
              rag_instances := eraseKey m.rag_instances lu.1,
              course_access_count := eraseKey m.course_access_count lu.1 }
              : RAGManager) = m1 := by
            injection h
          subst hm1
          have hmem : lu.1 ∈ keys m.rag_instances := (hasKey_iff_mem _ _).mp hk
          have hlen' := length_eraseKey_of_mem m.rag_instances lu.1 hmem
          refine ⟨?_, ?_, ?_, rfl, ?_, rfl, rfl, rfl⟩
          · simp [keys_eraseKey, hkeys]
          · simp only [keys_eraseKey]
            exact hnd.erase lu.1
          · dsimp only
            have : (eraseKey m.rag_instances lu.1).length + 1 ≤
                m.max_preloaded := hlen' ▸ hlen
            omega
          · intro k hkmem
            simp only [keys_eraseKey] at hkmem
            exact List.mem_of_mem_erase hkmem
      · exact absurd h (by simp)
  · rename_i hcap
    have hm1 : m = m1 := by injection h
    subst hm1
    exact ⟨hkeys, hnd, Nat.lt_of_not_le hcap, rfl,
      fun k hk => hk, rfl, rfl, rfl⟩

theorem initialize_course_fast (m : RAGManager) (id : String)
    (cF vF : Bool) (eng : Nat) (h : alookup m.rag_instances id = some eng) :
    initialize_course m id cF vF = (.ok eng, m) := by
  unfold initialize_course
  rw [h]

theorem initialize_course_evict_error (m : RAGManager) (id : String)
    (cF vF : Bool) (e : PoolError)
    (ha : alookup m.rag_instances id = none)
    (he : evictIfNeeded m vF = .error e) :
    initialize_course m id cF vF = (.error e, m) := by
  unfold initialize_course
  rw [ha, he]

theorem initialize_course_construct_fail (m : RAGManager) (id : String)
    (vF : Bool) (m1 : RAGManager)
    (ha : alookup m.rag_instances id = none)
    (he : evictIfNeeded m vF = .ok m1) :
    initialize_course m id true vF = (.error (.constructionFailure id),
      { m1 with constructAttempts := m1.constructAttempts ++ [id] }) := by
  unfold initialize_course
  rw [ha, he]
  rfl

theorem initialize_course_register (m : RAGManager) (id : String)
    (vF : Bool) (m1 : RAGManager)
    (ha : alookup m.rag_instances id = none)
    (he : evictIfNeeded m vF = .ok m1) :
    initialize_course m id false vF = (.ok m1.nextSerial, { m1 with
      rag_instances := dictSet m1.rag_instances id m1.nextSerial,
      course_access_count := dictSet m1.course_access_count id 0,
      nextSerial := m1.nextSerial + 1,
      logs := m1.logs ++ [.initializedCourse id],
      constructAttempts := m1.constructAttempts ++ [id] }) := by
  unfold initialize_course
  rw [ha, he]
  rfl

/-! ### Preservation of the bookkeeping invariant -/

theorem goodState_mk (M : Nat) : goodState (mkRAGManager M) := by
  refine ⟨rfl, List.nodup_nil, ?_⟩
  simp [mkRAGManager]

theorem initialize_course_state (m : RAGManager) (id : String) (cF vF : Bool)
    (hg : goodState m) :
    goodState (initialize_course m id cF vF).2 ∧
    (initialize_course m id cF vF).2.max_preloaded = m.max_preloaded := by
  cases ha : alookup m.rag_instances id with
  | some eng =>
    rw [initialize_course_fast m id cF vF eng ha]
    exact ⟨hg, rfl⟩
  | none =>
    cases he : evictIfNeeded m vF with
    | error e =>
      rw [initialize_course_evict_error m id cF vF e ha he]
      exact ⟨hg, rfl⟩
    | ok m1 =>
      obtain ⟨hkeys, hnd, hlt, hmax, hsub, -, -, -⟩ :=
        evictIfNeeded_ok_spec m vF m1 hg he
      have hid : id ∉ keys m1.rag_instances := fun hmem =>
        ((alookup_eq_none_iff _ _).mp ha) (hsub id hmem)
      have hid2 : id ∉ keys m1.course_access_count := hkeys ▸ hid
      cases cF with
      | true =>
        rw [initialize_course_construct_fail m id vF m1 ha he]
        exact ⟨⟨hkeys, hnd, le_of_lt (hmax ▸ hlt)⟩, hmax⟩
      | false =>
        rw [initialize_course_register m id vF m1 ha he]
        rw [dictSet_of_not_mem m1.rag_instances id m1.nextSerial hid,
          dictSet_of_not_mem m1.course_access_count id 0 hid2]
        refine ⟨⟨?_, ?_, ?_⟩, hmax⟩
        · simp [hkeys]
        · simp [List.nodup_append, hnd, hid]
        · dsimp only
          rw [List.length_append]
          simp only [List.length_cons, List.length_nil]
          omega

theorem initialize_course_ok_mem (m : RAGManager) (id : String)
    (cF vF : Bool) (r : Nat) (m1 : RAGManager)
    (h : initialize_course m id cF vF = (.ok r, m1)) :
    id ∈ keys m1.rag_instances := by
  cases ha : alookup m.rag_instances id with
  | some eng =>
    rw [initialize_course_fast m id cF vF eng ha, Prod.mk.injEq] at h
    rw [← h.2]
    exact (alookup_isSome_iff _ _).mp (by rw [ha]; rfl)
  | none =>
    cases he : evictIfNeeded m vF with
    | error e =>
      rw [initialize_course_evict_error m id cF vF e ha he,
        Prod.mk.injEq] at h
      exact absurd h.1 (by simp)
    | ok m0 =>
      cases cF with
      | true =>
        rw [initialize_course_construct_fail m id vF m0 ha he,
          Prod.mk.injEq] at h
        exact absurd h.1 (by simp)
      | false =>
        rw [initialize_course_register m id vF m0 ha he, Prod.mk.injEq] at h
        rw [← h.2]
        exact mem_keys_dictSet m0.rag_instances id m0.nextSerial

theorem get_rag_state (m : RAGManager) (id : String) (cF vF : Bool)
    (hg : goodState m) :
    goodState (get_rag m id cF vF).2 ∧
    (get_rag m id cF vF).2.max_preloaded = m.max_preloaded := by
  unfold get_rag
  by_cases hk : hasKey m.rag_instances id = true
  · simp only [hk, if_true]
    have hmem : id ∈ keys m.course_access_count :=
      hg.1 ▸ (hasKey_iff_mem _ _).mp hk
    have hkeys2 : keys (dictSet m.course_access_count id
        ((alookup m.course_access_count id).getD 0 + 1)) =
        keys m.course_access_count := keys_dictSet_of_mem _ _ _ hmem
    split
    · exact ⟨⟨hg.1.trans hkeys2.symm, hg.2.1, hg.2.2⟩, rfl⟩
    · exact ⟨⟨hg.1.trans hkeys2.symm, hg.2.1, hg.2.2⟩, rfl⟩
  · rw [if_neg hk]
    cases hinit : initialize_course m id cF vF with
    | mk res m1 =>
      have hstate := initialize_course_state m id cF vF hg
      rw [hinit] at hstate
      cases res with
      | error e =>
        dsimp only
        exact hstate
      | ok r =>
        have hmem : id ∈ keys m1.course_access_count :=
          hstate.1.1 ▸ initialize_course_ok_mem m id cF vF r m1 hinit
        have hkeys2 : keys (dictSet m1.course_access_count id
            ((alookup m1.course_access_count id).getD 0 + 1)) =
            keys m1.course_access_count := keys_dictSet_of_mem _ _ _ hmem
        obtain ⟨⟨h1, h2, h3⟩, h4⟩ := hstate
        dsimp only
        split
        · exact ⟨⟨h1.trans hkeys2.symm, h2, h3⟩, h4⟩
        · exact ⟨⟨h1.trans hkeys2.symm, h2, h3⟩, h4⟩

theorem gatherEnsures_state (outs : Nat → Bool × Bool) (l : List String) :
    ∀ (m : RAGManager) (i : Nat) (err : Option PoolError), goodState m →
      goodState (gatherEnsures outs m l i err).2 ∧
      (gatherEnsures outs m l i err).2.max_preloaded = m.max_preloaded := by
  induction l with
  | nil => intro m i err hg; exact ⟨hg, rfl⟩
  | cons id rest ih =>
    intro m i err hg
    have hstep := initialize_course_state m id (outs i).1 (outs i).2 hg
    unfold gatherEnsures
    obtain ⟨h1, h2⟩ := ih (initialize_course m id (outs i).1 (outs i).2).2
      (i + 1) (err <|> match (initialize_course m id (outs i).1 (outs i).2).1
        with | .ok _ => none | .error e => some e) hstep.1
    exact ⟨h1, h2.trans hstep.2⟩

theorem preload_courses_state (m : RAGManager) (ids : List String)
    (outs : Nat → Bool × Bool) (hg : goodState m) :
    goodState (preload_courses m ids outs).2 ∧
    (preload_courses m ids outs).2.max_preloaded = m.max_preloaded := by
  unfold preload_courses
  dsimp only
  have h := gatherEnsures_state outs (ids.take m.max_preloaded) m 0 none hg
  cases hres : gatherEnsures outs m (ids.take m.max_preloaded) 0 none with
  | mk err m1 =>
    rw [hres] at h
    cases err with
    | none => exact ⟨⟨h.1.1, h.1.2.1, h.1.2.2⟩, h.2⟩
    | some e => exact h

theorem switch_course_state (m : RAGManager) (id : String) (cF vF : Bool)
    (hg : goodState m) :
    goodState (switch_course m id cF vF).2 ∧
    (switch_course m id cF vF).2.max_preloaded = m.max_preloaded := by
  unfold switch_course
  have h := get_rag_state m id cF vF hg
  cases hres : get_rag m id cF vF with
  | mk res m1 =>
    rw [hres] at h
    cases res with
    | ok r => exact h
    | error e => exact ⟨⟨h.1.1, h.1.2.1, h.1.2.2⟩, h.2⟩

theorem cleanup_state (m : RAGManager) (fF : String → Bool) :
    goodState (cleanup m fF) ∧
    (cleanup m fF).max_preloaded = m.max_preloaded := by
  refine ⟨⟨rfl, List.nodup_nil, ?_⟩, rfl⟩
  simp [cleanup]

theorem applyOp_state (m : RAGManager) (op : PoolOp) (hg : goodState m) :
    goodState (applyOp m op) ∧ (applyOp m op).max_preloaded = m.max_preloaded := by
  cases op with
  | getOp id cF vF => exact get_rag_state m id cF vF hg
  | preloadOp ids outs => exact preload_courses_state m ids outs hg
  | switchOp id cF vF => exact switch_course_state m id cF vF hg
  | cleanupOp fF => exact cleanup_state m fF

theorem runOps_state (ops : List PoolOp) :
    ∀ (m : RAGManager), goodState m →
      goodState (runOps m ops) ∧ (runOps m ops).max_preloaded = m.max_preloaded := by
  induction ops with
  | nil => intro m hg; exact ⟨hg, rfl⟩
  | cons op rest ih =>
    intro m hg
    have hstep := applyOp_state m op hg
    have h := ih (applyOp m op) hstep.1
    exact ⟨h.1, h.2.trans hstep.2⟩

/-- Observation helper for `preload_courses`: the retained ids whose
injected construction outcome is success, in input order, when the first
of them runs as task number `i`. -/
def successes (outs : Nat → Bool × Bool) : List String → Nat → List String
  | [], _ => []
  | id :: rest, i =>
    if (outs i).1 then successes outs rest (i + 1)
    else id :: successes outs rest (i + 1)

/-- Observation helper for `preload_courses`: the first construction
failure among the retained ids, i.e. the exception that the bare
`asyncio.gather` re-raises. -/
def firstFailure (outs : Nat → Bool × Bool) :
    List String → Nat → Option PoolError
  | [], _ => none
  | id :: rest, i =>
    if (outs i).1 then some (.constructionFailure id)
    else firstFailure outs rest (i + 1)

theorem orelse_some_absorb {α : Type} (a : Option α) (x : α) (y : Option α) :
    ((a <|> some x) <|> y) = (a <|> some x) := by
  cases a <;> rfl

theorem orelse_none_right {α : Type} (a : Option α) : (a <|> none) = a := by
  cases a <;> rfl

theorem hasKey_eq_false_of_alookup {α : Type} (l : List (String × α))
    (k : String) (h : alookup l k = none) : hasKey l k = false := by
  unfold hasKey
  rw [h]
  rfl

theorem alookup_eq_none_of_hasKey {α : Type} (l : List (String × α))
    (k : String) (h : hasKey l k = false) : alookup l k = none := by
  unfold hasKey at h
  exact Option.not_isSome_iff_eq_none.mp (by rw [h]; simp)

theorem get_rag_of_init_error (m : RAGManager) (id : String) (cF vF : Bool)
    (e : PoolError) (m1 : RAGManager)
    (hk : hasKey m.rag_instances id = false)
    (h : initialize_course m id cF vF = (.error e, m1)) :
    get_rag m id cF vF = (.error e, m1) := by
  unfold get_rag
  rw [if_neg (by rw [hk]; exact Bool.false_ne_true), h]

theorem gatherEnsures_fresh (outs : Nat → Bool × Bool) (l : List String) :
    ∀ (m : RAGManager) (i : Nat) (err : Option PoolError),
      m.rag_instances.length + l.length ≤ m.max_preloaded →
      l.Nodup →
      (∀ id ∈ l, hasKey m.rag_instances id = false) →
      (∀ id ∈ l, hasKey m.course_access_count id = false) →
      (gatherEnsures outs m l i err).1 = (err <|> firstFailure outs l i) ∧
      keys (gatherEnsures outs m l i err).2.rag_instances =
        keys m.rag_instances ++ successes outs l i ∧
      (gatherEnsures outs m l i err).2.course_access_count =
        m.course_access_count ++
          (successes outs l i).map (fun id => (id, 0)) ∧
      (gatherEnsures outs m l i err).2.constructAttempts =
        m.constructAttempts ++ l ∧
      (gatherEnsures outs m l i err).2.max_preloaded = m.max_preloaded := by
  induction l with
  | nil =>
    intro m i err hlen hnd hfresh hfreshc
    simp [gatherEnsures, successes, firstFailure]
  | cons id rest ih =>
    intro m i err hlen hnd hfresh hfreshc
    have hidf : hasKey m.rag_instances id = false :=
      hfresh id (List.mem_cons_self id rest)
    have hidfc : hasKey m.course_access_count id = false :=
      hfreshc id (List.mem_cons_self id rest)
    have ha : alookup m.rag_instances id = none :=
      alookup_eq_none_of_hasKey _ _ hidf
    have hidmem : id ∉ keys m.rag_instances := (alookup_eq_none_iff _ _).mp ha
    have hidmemc : id ∉ keys m.course_access_count :=
      (alookup_eq_none_iff _ _).mp (alookup_eq_none_of_hasKey _ _ hidfc)
    have hlt : m.rag_instances.length < m.max_preloaded := by
      rw [List.length_cons] at hlen
      omega
    have he := evictIfNeeded_not_full m ((outs i).2) hlt
    unfold gatherEnsures
    dsimp only
    cases hout : (outs i).1 with
    | true =>
      have hinit := initialize_course_construct_fail m id ((outs i).2) m ha he
      rw [hinit]
      dsimp only
      have hrest := ih { m with
          constructAttempts := m.constructAttempts ++ [id] } (i + 1)
        (err <|> some (.constructionFailure id))
        (by dsimp only; rw [List.length_cons] at hlen; omega)
        hnd.of_cons
        (fun id2 h2 => hfresh id2 (List.mem_cons_of_mem id h2))
        (fun id2 h2 => hfreshc id2 (List.mem_cons_of_mem id h2))
      refine ⟨?_, ?_, ?_, ?_, ?_⟩
      · rw [hrest.1, orelse_some_absorb]
        simp [firstFailure, hout]
      · rw [hrest.2.1]
        simp [successes, hout]
      · rw [hrest.2.2.1]
        simp [successes, hout]
      · rw [hrest.2.2.2.1]
        dsimp only
        rw [List.append_assoc]
        rfl
      · exact hrest.2.2.2.2
    | false =>
      have hinit := initialize_course_register m id ((outs i).2) m ha he
      rw [hinit]
      dsimp only
      rw [dictSet_of_not_mem _ _ _ hidmem, dictSet_of_not_mem _ _ _ hidmemc]
      have hfr : ∀ id2 ∈ rest,
          hasKey (m.rag_instances ++ [(id, m.nextSerial)]) id2 = false := by
        intro id2 h2
        refine (hasKey_eq_false_iff _ _).mpr ?_
        rw [keys_append]
        intro hmem
        rcases List.mem_append.mp hmem with hmem | hmem
        · exact absurd hmem ((hasKey_eq_false_iff _ _).mp
            (hfresh id2 (List.mem_cons_of_mem id h2)))
        · simp only [keys_cons, keys_nil, List.mem_singleton] at hmem
          exact (List.nodup_cons.mp hnd).1 (hmem ▸ h2)
      have hfrc : ∀ id2 ∈ rest,
          hasKey (m.course_access_count ++ [(id, 0)]) id2 = false := by
        intro id2 h2
        refine (hasKey_eq_false_iff _ _).mpr ?_
        rw [keys_append]
        intro hmem
        rcases List.mem_append.mp hmem with hmem | hmem
        · exact absurd hmem ((hasKey_eq_false_iff _ _).mp
            (hfreshc id2 (List.mem_cons_of_mem id h2)))
        · simp only [keys_cons, keys_nil, List.mem_singleton] at hmem
          exact (List.nodup_cons.mp hnd).1 (hmem ▸ h2)
      have hrest := ih { m with
          rag_instances := m.rag_instances ++ [(id, m.nextSerial)],
          course_access_count := m.course_access_count ++ [(id, 0)],
          nextSerial := m.nextSerial + 1,
          logs := m.logs ++ [.initializedCourse id],
          constructAttempts := m.constructAttempts ++ [id] } (i + 1)
        (err <|> none)
        (by dsimp only
            rw [List.length_append, List.length_cons] at *
            simp only [List.length_cons, List.length_nil] at *
            omega)
        hnd.of_cons hfr hfrc
      refine ⟨?_, ?_, ?_, ?_, ?_⟩
      · rw [hrest.1, orelse_none_right]
        simp [firstFailure, hout]
      · rw [hrest.2.1]
        dsimp only
        rw [keys_append, List.append_assoc]
        simp [successes, hout]
      · rw [hrest.2.2.1]
        dsimp only
        rw [List.append_assoc]
        simp [successes, hout]
      · rw [hrest.2.2.2.1]
        dsimp only
        rw [List.append_assoc]
        rfl
      · exact hrest.2.2.2.2

/-! ### Claim theorems -/

/-- C4: for every sequence of completed pool operations (get, preload,
switch, cleanup) starting from a freshly constructed pool with
MaxCapacity ≥ 1, after each operation completes the number of resident
tenants is at most MaxCapacity.  (`ops` ranges over all sequences, so any
intermediate point of a longer run is the final state of its prefix.) -/
theorem pool_size_bounded (M : Nat) (hM : 1 ≤ M) (ops : List PoolOp) :
    (runOps (mkRAGManager M) ops).rag_instances.length ≤ M := by
  have h := runOps_state ops (mkRAGManager M) (goodState_mk M)
  have hlen := h.1.2.2
  rw [h.2] at hlen
  exact hlen

/-- Witness for C4 at MaxCapacity 1 and three get operations. -/
theorem pool_size_bounded_witness :
    (runOps (mkRAGManager 1) [PoolOp.getOp "A" false false,
      PoolOp.getOp "B" false false,
      PoolOp.getOp "C" false false]).rag_instances.length ≤ 1 :=
  pool_size_bounded 1 (by decide) [PoolOp.getOp "A" false false,
    PoolOp.getOp "B" false false, PoolOp.getOp "C" false false]

/-- C5: for every sequence of completed pool operations starting from a
freshly constructed pool, the keys of the Pool mapping (`rag_instances`)
and the keys of the Access Tracker (`course_access_count`) are identical
after each operation completes (here proved as equal insertion-ordered
lists, which implies identical sets). -/
theorem pool_tracker_keys_agree (M : Nat) (ops : List PoolOp) :
    keys (runOps (mkRAGManager M) ops).rag_instances =
      keys (runOps (mkRAGManager M) ops).course_access_count :=
  (runOps_state ops (mkRAGManager M) (goodState_mk M)).1.1

/-- C8: `cleanup` never raises (it is a total function into states in this
model, mirroring the per-tenant `except Exception` in the source); every
resident tenant gets its own finalize attempt logged — success or failure —
independently of the other tenants' outcomes; both dicts are cleared
unconditionally; and a second `cleanup` is a no-op that leaves the pool
empty again. -/
theorem cleanup_clears_and_idempotent (m : RAGManager)
    (fF fF2 : String → Bool) :
    (cleanup m fF).rag_instances = [] ∧
    (cleanup m fF).course_access_count = [] ∧
    (∀ p ∈ m.rag_instances,
      (if fF p.1 then LogEvent.cleanupFailed p.1 else LogEvent.cleanedUp p.1)
        ∈ (cleanup m fF).logs) ∧
    cleanup (cleanup m fF) fF2 = cleanup m fF := by
  refine ⟨rfl, rfl, ?_, ?_⟩
  · intro p hp
    exact List.mem_append_right _ (List.mem_map_of_mem _ hp)
  · simp [cleanup]

/-- C9: `switch_course` returns `true` exactly when the underlying
`get_rag` succeeds and `false` exactly when it fails with any error; the
error itself is swallowed (the return type is a bare Boolean). -/
theorem switch_course_bool_of_get (m : RAGManager) (id : String)
    (cF vF : Bool) :
    ((switch_course m id cF vF).1 = true ↔
      ∃ eng, (get_rag m id cF vF).1 = .ok eng) ∧
    ((switch_course m id cF vF).1 = false ↔
      ∃ e, (get_rag m id cF vF).1 = .error e) := by
  unfold switch_course
  cases hres : get_rag m id cF vF with
  | mk res m1 =>
    cases res with
    | ok r => simp
    | error e => simp

/-- C6: for a tenant that is not resident, when the engine's construction
or initialization fails, `get_rag` raises that failure to its caller and
afterwards the tenant is a key of neither the Pool mapping nor the Access
Tracker — no partial entry persists.  (The eviction that may precede
construction is taken to succeed; a failing eviction is the subject of the
C2 analysis and also registers nothing.) -/
theorem construct_failure_leaves_no_entry (m : RAGManager) (id : String)
    (hg : goodState m) (hmax : 1 ≤ m.max_preloaded)
    (hid : hasKey m.rag_instances id = false) :
    (get_rag m id true false).1 = .error (.constructionFailure id) ∧
    hasKey (get_rag m id true false).2.rag_instances id = false ∧
    hasKey (get_rag m id true false).2.course_access_count id = false := by
  have ha : alookup m.rag_instances id = none :=
    alookup_eq_none_of_hasKey _ _ hid
  have hidmem : id ∉ keys m.rag_instances :=
    (alookup_eq_none_iff _ _).mp ha
  by_cases hcap : m.max_preloaded ≤ m.rag_instances.length
  · -- at capacity: a successful eviction happens first
    have hne : m.rag_instances ≠ [] := by
      intro h0
      rw [h0] at hcap
      simp at hcap
      omega
    have hcacne : m.course_access_count ≠ [] := by
      intro h0
      have := hg.1
      rw [h0] at this
      simp only [keys_nil] at this
      exact hne (List.map_eq_nil_iff.mp this)
    cases hmin : minByCount m.course_access_count with
    | none => exact absurd ((minByCount_eq_none_iff _).mp hmin) hcacne
    | some lu =>
      have hlumem : lu.1 ∈ keys m.course_access_count :=
        List.mem_map_of_mem Prod.fst (minByCount_mem _ _ hmin)
      have hk : hasKey m.rag_instances lu.1 = true :=
        (hasKey_iff_mem _ _).mpr (hg.1 ▸ hlumem)
      have he := evictIfNeeded_full_ok m lu hcap hmin hk
      have hinit := initialize_course_construct_fail m id false
        _ ha he
      have hget := get_rag_of_init_error m id true false _ _ hid hinit
      rw [hget]
      refine ⟨rfl, ?_, ?_⟩
      · refine hasKey_eq_false_of_alookup _ _ ?_
        refine (alookup_eq_none_iff _ _).mpr ?_
        dsimp only
        rw [keys_eraseKey]
        intro hmem
        exact hidmem (List.mem_of_mem_erase hmem)
      · refine hasKey_eq_false_of_alookup _ _ ?_
        refine (alookup_eq_none_iff _ _).mpr ?_
        dsimp only
        rw [keys_eraseKey]
        intro hmem
        exact hidmem (hg.1 ▸ List.mem_of_mem_erase hmem)
  · -- below capacity: no eviction
    have he := evictIfNeeded_not_full m false (Nat.lt_of_not_le hcap)
    have hinit := initialize_course_construct_fail m id false m ha he
    have hget := get_rag_of_init_error m id true false _ _ hid hinit
    rw [hget]
    refine ⟨rfl, hid, ?_⟩
    refine hasKey_eq_false_of_alookup _ _ ?_
    exact (alookup_eq_none_iff _ _).mpr (fun hmem => hidmem (hg.1 ▸ hmem))

/-- Witness for C6: a fresh pool of capacity 2 with "A" resident; getting
"bad" with a failing construction raises and leaves "bad" absent. -/
theorem construct_failure_leaves_no_entry_witness :
    ((get_rag (get_rag (mkRAGManager 2) "A" false false).2 "bad" true
        false).1 = .error (.constructionFailure "bad")) ∧
    hasKey (get_rag (get_rag (mkRAGManager 2) "A" false false).2 "bad" true
      false).2.rag_instances "bad" = false ∧
    hasKey (get_rag (get_rag (mkRAGManager 2) "A" false false).2 "bad" true
      false).2.course_access_count "bad" = false :=
  construct_failure_leaves_no_entry
    (get_rag (mkRAGManager 2) "A" false false).2 "bad"
    (by decide) (by decide) (by decide)

/-- C2 as stated is false: the source awaits the victim's
`finalize_storages()` *before* the two `del` statements and has no
`try`/`except` around it, so a raising finalize aborts the admission and
leaves the victim resident.  Concretely: capacity 1, "A" resident, and
`get_rag "B"` with the victim's finalize raising — the call raises the
finalization failure, "A" is still resident and "B" was not admitted. -/
theorem evict_finalize_failure_cex :
    ((get_rag (get_rag (mkRAGManager 1) "A" false false).2 "B" false
        true).1 = .error (.finalizationFailure "A")) ∧
    hasKey (get_rag (get_rag (mkRAGManager 1) "A" false false).2 "B" false
      true).2.rag_instances "A" = true ∧
    hasKey (get_rag (get_rag (mkRAGManager 1) "A" false false).2 "B" false
      true).2.rag_instances "B" = false := by
  decide

/-- C2 amended: if the eviction victim's finalize raises, the failure
propagates out of the triggering `get_rag` (it is not logged-and-ignored),
the victim is removed from neither the pool nor the Access Tracker — the
state is completely unchanged — and the new tenant is not admitted. -/
theorem evict_finalize_failure_blocks_eviction (m : RAGManager)
    (id : String) (lu : String × Nat) (cF : Bool) (hg : goodState m)
    (hcap : m.max_preloaded ≤ m.rag_instances.length)
    (hid : hasKey m.rag_instances id = false)
    (hmin : minByCount m.course_access_count = some lu) :
    get_rag m id cF true = (.error (.finalizationFailure lu.1), m) ∧
    hasKey m.rag_instances lu.1 = true := by
  have ha : alookup m.rag_instances id = none :=
    alookup_eq_none_of_hasKey _ _ hid
  have hlumem : lu.1 ∈ keys m.course_access_count :=
    List.mem_map_of_mem Prod.fst (minByCount_mem _ _ hmin)
  have hk : hasKey m.rag_instances lu.1 = true :=
    (hasKey_iff_mem _ _).mpr (hg.1 ▸ hlumem)
  have he := evictIfNeeded_full_fail m lu hcap hmin hk
  have hinit := initialize_course_evict_error m id cF true _ ha he
  exact ⟨get_rag_of_init_error m id cF true _ _ hid hinit, hk⟩

/-- Witness for the amended C2 at the concrete state of the
counterexample. -/
theorem evict_finalize_failure_blocks_eviction_witness :
    (get_rag (get_rag (mkRAGManager 1) "A" false false).2 "B" false true =
      (.error (.finalizationFailure "A"),
        (get_rag (mkRAGManager 1) "A" false false).2)) ∧
    hasKey (get_rag (mkRAGManager 1) "A" false false).2.rag_instances "A"
      = true :=
  evict_finalize_failure_blocks_eviction
    (get_rag (mkRAGManager 1) "A" false false).2 "B" ("A", 1) false
    (by decide) (by decide) (by decide) (by decide)

/-- C10 as stated is false for `preload_courses`: with
`max_preloaded = 0` the slice `course_ids[:0]` is empty, so preload spawns
no `initialize_course` task at all and returns successfully (a vacuous
no-op), instead of failing.  Only `get_rag` hits the empty-`min`
`ValueError`. -/
theorem capacity_zero_preload_cex :
    (preload_courses (mkRAGManager 0) ["A"] (fun _ => (false, false))).1
      = .ok () ∧
    (preload_courses (mkRAGManager 0) ["A"]
      (fun _ => (false, false))).2.rag_instances = [] := by
  constructor
  · rfl
  · rfl

/-- C10 amended: with MaxCapacity 0, every `get_rag` for a not-yet-resident
tenant fails — the capacity check fires on the empty pool, `min` of the
empty Access Tracker raises — and leaves the state unchanged; `preload`
for any id list truncates to zero ids and succeeds vacuously without
admitting anyone; and no tenant is ever admitted by any operation
sequence. -/
theorem capacity_zero_blocks_admission :
    (∀ (m : RAGManager) (id : String) (cF vF : Bool),
      m.max_preloaded = 0 → goodState m →
      get_rag m id cF vF = (.error .emptyMinError, m)) ∧
    (∀ (m : RAGManager) (ids : List String) (outs : Nat → Bool × Bool),
      m.max_preloaded = 0 → (preload_courses m ids outs).1 = .ok ()) ∧
    ∀ ops : List PoolOp, (runOps (mkRAGManager 0) ops).rag_instances = [] := by
  refine ⟨?_, ?_, ?_⟩
  · intro m id cF vF hmax hg
    have hrag : m.rag_instances = [] := by
      have := hg.2.2
      rw [hmax] at this
      exact List.length_eq_zero.mp (Nat.le_zero.mp this)
    have hcac : m.course_access_count = [] := by
      have := hg.1
      rw [hrag] at this
      simp only [keys_nil] at this
      exact List.map_eq_nil_iff.mp this.symm
    have ha : alookup m.rag_instances id = none := by
      rw [hrag]
      rfl
    have he := evictIfNeeded_empty m vF
      (by rw [hmax]; exact Nat.zero_le _) hcac
    have hinit := initialize_course_evict_error m id cF vF _ ha he
    exact get_rag_of_init_error m id cF vF _ _
      (hasKey_eq_false_of_alookup _ _ ha) hinit
  · intro m ids outs hmax
    unfold preload_courses
    rw [hmax, List.take_zero]
    rfl
  · intro ops
    have h := runOps_state ops (mkRAGManager 0) (goodState_mk 0)
    have hlen := h.1.2.2
    rw [h.2] at hlen
    exact List.length_eq_zero.mp (Nat.le_zero.mp hlen)

/-- Witness for the amended C10: the `get_rag` branch applied to the fresh
capacity-0 pool. -/
theorem capacity_zero_blocks_admission_witness :
    get_rag (mkRAGManager 0) "A" false false =
      (.error .emptyMinError, mkRAGManager 0) :=
  capacity_zero_blocks_admission.1 (mkRAGManager 0) "A" false false rfl
    (by decide)

/-- C1: when an admission happens while the pool is at capacity, the
evicted tenant `lu` is a resident with the minimum access count, and among
ties the one admitted earliest.  Insertion order of the Python dicts is
list order here, so the decomposition `course_access_count = pre ++ lu ::
post` with strictly larger counts in `pre` and larger-or-equal counts in
`post` says exactly that `lu` attains the minimum and every
earlier-admitted tenant has a strictly larger count.  The final conjuncts
check the two concrete scenarios of the claim: with MaxCapacity 2, after
get "A", "A", "B", "C" the residents are {A, C} (B evicted), and after
get "A", "B", "C" the residents are {B, C} (A evicted). -/
theorem eviction_picks_min_count_oldest (m : RAGManager) (id : String)
    (hg : goodState m)
    (hcap : m.max_preloaded ≤ m.rag_instances.length)
    (hne : m.rag_instances ≠ [])
    (hid : hasKey m.rag_instances id = false) :
    (∃ lu pre post,
      minByCount m.course_access_count = some lu ∧
      m.course_access_count = pre ++ lu :: post ∧
      (∀ p ∈ pre, lu.2 < p.2) ∧
      (∀ p ∈ post, lu.2 ≤ p.2) ∧
      ∀ cF : Bool,
        hasKey (initialize_course m id cF false).2.rag_instances lu.1
          = false ∧
        keys (initialize_course m id cF false).2.rag_instances =
          ((keys m.rag_instances).erase lu.1) ++
            (if cF then [] else [id])) ∧
    keys (runOps (mkRAGManager 2) [.getOp "A" false false,
      .getOp "A" false false, .getOp "B" false false,
      .getOp "C" false false]).rag_instances = ["A", "C"] ∧
    keys (runOps (mkRAGManager 2) [.getOp "A" false false,
      .getOp "B" false false, .getOp "C" false false]).rag_instances
      = ["B", "C"] := by
  refine ⟨?_, by decide, by decide⟩
  have ha : alookup m.rag_instances id = none :=
    alookup_eq_none_of_hasKey _ _ hid
  have hidmem : id ∉ keys m.rag_instances := (alookup_eq_none_iff _ _).mp ha
  have hcacne : m.course_access_count ≠ [] := by
    intro h0
    have := hg.1
    rw [h0] at this
    simp only [keys_nil] at this
    exact hne (List.map_eq_nil_iff.mp this)
  cases hmin : minByCount m.course_access_count with
  | none => exact absurd ((minByCount_eq_none_iff _).mp hmin) hcacne
  | some lu =>
    obtain ⟨pre, post, hsplit, hpre, hpost⟩ := minByCount_spec _ lu hmin
    have hlumem : lu.1 ∈ keys m.course_access_count :=
      List.mem_map_of_mem Prod.fst (minByCount_mem _ _ hmin)
    have hlurag : lu.1 ∈ keys m.rag_instances := hg.1 ▸ hlumem
    have hk : hasKey m.rag_instances lu.1 = true :=
      (hasKey_iff_mem _ _).mpr hlurag
    have he := evictIfNeeded_full_ok m lu hcap hmin hk
    have hlune : lu.1 ≠ id := fun h => hidmem (h ▸ hlurag)
    refine ⟨lu, pre, post, rfl, hsplit, hpre, hpost, ?_⟩
    intro cF
    cases cF with
    | true =>
      rw [initialize_course_construct_fail m id false _ ha he]
      constructor
      · refine hasKey_eq_false_of_alookup _ _
          ((alookup_eq_none_iff _ _).mpr ?_)
        dsimp only
        rw [keys_eraseKey]
        intro hmem
        exact ((List.Nodup.mem_erase_iff hg.2.1).mp hmem).1 rfl
      · dsimp only
        rw [keys_eraseKey]
        simp
    | false =>
      have hidm1 : id ∉ keys (eraseKey m.rag_instances lu.1) := by
        rw [keys_eraseKey]
        intro hmem
        exact hidmem (List.mem_of_mem_erase hmem)
      rw [initialize_course_register m id false _ ha he]
      dsimp only
      rw [dictSet_of_not_mem _ _ _ hidm1]
      constructor
      · refine hasKey_eq_false_of_alookup _ _
          ((alookup_eq_none_iff _ _).mpr ?_)
        rw [keys_append, keys_eraseKey]
        intro hmem
        rcases List.mem_append.mp hmem with hmem | hmem
        · exact ((List.Nodup.mem_erase_iff hg.2.1).mp hmem).1 rfl
        · simp only [keys_cons, keys_nil, List.mem_singleton] at hmem
          exact hlune hmem
      · rw [keys_append, keys_eraseKey]
        rfl

/-- Witness for C1 at a concrete at-capacity state: capacity 1 with "A"
resident (count 1) and a new tenant "B" arriving. -/
theorem eviction_picks_min_count_oldest_witness :
    (∃ lu pre post,
      minByCount (get_rag (mkRAGManager 1) "A" false
        false).2.course_access_count = some lu ∧
      (get_rag (mkRAGManager 1) "A" false false).2.course_access_count
        = pre ++ lu :: post ∧
      (∀ p ∈ pre, lu.2 < p.2) ∧
      (∀ p ∈ post, lu.2 ≤ p.2) ∧
      ∀ cF : Bool,
        hasKey (initialize_course (get_rag (mkRAGManager 1) "A" false
          false).2 "B" cF false).2.rag_instances lu.1 = false ∧
        keys (initialize_course (get_rag (mkRAGManager 1) "A" false
          false).2 "B" cF false).2.rag_instances =
          ((keys (get_rag (mkRAGManager 1) "A" false
            false).2.rag_instances).erase lu.1) ++
            (if cF then [] else ["B"])) ∧
    keys (runOps (mkRAGManager 2) [.getOp "A" false false,
      .getOp "A" false false, .getOp "B" false false,
      .getOp "C" false false]).rag_instances = ["A", "C"] ∧
    keys (runOps (mkRAGManager 2) [.getOp "A" false false,
      .getOp "B" false false, .getOp "C" false false]).rag_instances
      = ["B", "C"] :=
  eviction_picks_min_count_oldest
    (get_rag (mkRAGManager 1) "A" false false).2 "B"
    (by decide) (by decide) (by decide) (by decide)

theorem successes_all_ok (l : List String) :
    ∀ i, successes (fun _ => (false, false)) l i = l := by
  induction l with
  | nil => intro i; rfl
  | cons id rest ih =>
    intro i
    simp [successes, ih]

theorem firstFailure_all_ok (l : List String) :
    ∀ i, firstFailure (fun _ => (false, false)) l i = none := by
  induction l with
  | nil => intro i; rfl
  | cons id rest ih =>
    intro i
    simp [firstFailure, ih]

/-- C7: `preload_courses` on an empty pool with a list of distinct ids and
MaxCapacity M smaller than the list, every construction succeeding:
exactly the first M ids (in input order) become resident, construction is
attempted precisely for those M ids — ids beyond the first M are never
constructed, silently — and every resident tenant's access count is 0
(preload increments nothing); the call itself succeeds. -/
theorem preload_truncates_no_touch (M : Nat) (ids : List String)
    (hnd : ids.Nodup) (hM : M < ids.length) :
    (preload_courses (mkRAGManager M) ids (fun _ => (false, false))).1
      = .ok () ∧
    keys (preload_courses (mkRAGManager M) ids
      (fun _ => (false, false))).2.rag_instances = ids.take M ∧
    (preload_courses (mkRAGManager M) ids
      (fun _ => (false, false))).2.course_access_count =
      (ids.take M).map (fun id => (id, 0)) ∧
    (preload_courses (mkRAGManager M) ids
      (fun _ => (false, false))).2.constructAttempts = ids.take M := by
  have hlen : (mkRAGManager M).rag_instances.length +
      (ids.take M).length ≤ (mkRAGManager M).max_preloaded := by
    simp [mkRAGManager, List.length_take]
  have hnd2 : (ids.take M).Nodup :=
    List.Nodup.sublist (List.take_sublist M ids) hnd
  obtain ⟨h1, h2, h3, h4, -⟩ := gatherEnsures_fresh
    (fun _ => (false, false)) (ids.take M) (mkRAGManager M) 0 none hlen
    hnd2 (fun id _ => rfl) (fun id _ => rfl)
  rw [successes_all_ok, firstFailure_all_ok] at *
  have h1' : (gatherEnsures (fun _ => (false, false)) (mkRAGManager M)
      (ids.take M) 0 none).1 = none := h1
  have hpair : gatherEnsures (fun _ => (false, false)) (mkRAGManager M)
      (ids.take M) 0 none =
      (none, (gatherEnsures (fun _ => (false, false)) (mkRAGManager M)
        (ids.take M) 0 none).2) := Prod.ext h1' rfl
  have hmp : (mkRAGManager M).max_preloaded = M := rfl
  unfold preload_courses
  rw [hmp]
  dsimp only
  rw [hpair]
  refine ⟨rfl, ?_, ?_, ?_⟩
  · dsimp only
    rw [h2]
    simp [mkRAGManager]
  · dsimp only
    rw [h3]
    simp [mkRAGManager]
  · dsimp only
    rw [h4]
    simp [mkRAGManager]

/-- Witness for C7: scenario 3 of the spec, `preload ["x","y","z"]` with
MaxCapacity 2 gives residents x, y with counts 0; z is never
constructed. -/
theorem preload_truncates_no_touch_witness :
    (preload_courses (mkRAGManager 2) ["x", "y", "z"]
      (fun _ => (false, false))).1 = .ok () ∧
    keys (preload_courses (mkRAGManager 2) ["x", "y", "z"]
      (fun _ => (false, false))).2.rag_instances
      = ["x", "y", "z"].take 2 ∧
    (preload_courses (mkRAGManager 2) ["x", "y", "z"]
      (fun _ => (false, false))).2.course_access_count =
      (["x", "y", "z"].take 2).map (fun id => (id, 0)) ∧
    (preload_courses (mkRAGManager 2) ["x", "y", "z"]
      (fun _ => (false, false))).2.constructAttempts
      = ["x", "y", "z"].take 2 :=
  preload_truncates_no_touch 2 ["x", "y", "z"] (by decide) (by decide)

/-- C3 as stated is false: `preload_courses` awaits a bare
`asyncio.gather(*tasks)` (no `return_exceptions`), which re-raises the
first task failure instead of collecting per-tenant successes and
failures, so a single tenant's failure does make the whole preload call
fail.  Concretely with capacity 2: preload ["a", "b"] where "a"'s
construction fails and "b"'s succeeds raises "a"'s construction failure —
even though "b"'s ensure was attempted and completed ("b" is resident). -/
theorem preload_first_failure_cex :
    (preload_courses (mkRAGManager 2) ["a", "b"]
      (fun i => (i == 0, false))).1
      = .error (.constructionFailure "a") ∧
    hasKey (preload_courses (mkRAGManager 2) ["a", "b"]
      (fun i => (i == 0, false))).2.rag_instances "b" = true := by
  decide

/-- C3 amended: a single tenant's failure does not abort the other
retained ensures — every retained id's construction is attempted and every
tenant whose construction succeeds is resident afterwards — but the
preload call itself does fail whenever any ensure fails, re-raising the
first failure rather than reporting per-tenant results.  (Stated on a
fresh pool whose capacity admits the whole distinct id list, so no
eviction interferes.) -/
theorem preload_attempts_all_raises_first (M : Nat) (ids : List String)
    (outs : Nat → Bool × Bool) (hnd : ids.Nodup)
    (hle : ids.length ≤ M) :
    keys (preload_courses (mkRAGManager M) ids outs).2.rag_instances =
      successes outs ids 0 ∧
    (preload_courses (mkRAGManager M) ids outs).2.constructAttempts
      = ids ∧
    ((preload_courses (mkRAGManager M) ids outs).1 = .ok () ↔
      firstFailure outs ids 0 = none) ∧
    ∀ e, (preload_courses (mkRAGManager M) ids outs).1 = .error e →
      firstFailure outs ids 0 = some e := by
  have htake : ids.take (mkRAGManager M).max_preloaded = ids :=
    List.take_of_length_le hle
  have hlen : (mkRAGManager M).rag_instances.length +
      ids.length ≤ (mkRAGManager M).max_preloaded := by
    simpa [mkRAGManager] using hle
  obtain ⟨h1, h2, h3, h4, -⟩ := gatherEnsures_fresh outs ids
    (mkRAGManager M) 0 none hlen hnd
    (fun id _ => rfl) (fun id _ => rfl)
  unfold preload_courses
  rw [htake]
  cases hff : firstFailure outs ids 0 with
  | none =>
    rw [hff] at h1
    have h1' : (gatherEnsures outs (mkRAGManager M) ids 0 none).1 = none :=
      h1
    have hpair : gatherEnsures outs (mkRAGManager M) ids 0 none =
        (none, (gatherEnsures outs (mkRAGManager M) ids 0 none).2) :=
      Prod.ext h1' rfl
    dsimp only
    rw [hpair]
    refine ⟨?_, ?_, by simp, by simp⟩
    · dsimp only
      rw [h2]
      simp [mkRAGManager]
    · dsimp only
      rw [h4]
      simp [mkRAGManager]
  | some e0 =>
    rw [hff] at h1
    have h1' : (gatherEnsures outs (mkRAGManager M) ids 0 none).1
        = some e0 := h1
    have hpair : gatherEnsures outs (mkRAGManager M) ids 0 none =
        (some e0, (gatherEnsures outs (mkRAGManager M) ids 0 none).2) :=
      Prod.ext h1' rfl
    dsimp only
    rw [hpair]
    refine ⟨?_, ?_, by simp, ?_⟩
    · dsimp only
      rw [h2]
      simp [mkRAGManager]
    · dsimp only
      rw [h4]
      simp [mkRAGManager]
    · intro e he
      dsimp only at he
      exact congrArg some (by injection he) |>.symm ▸ rfl

/-- Witness for the amended C3 at the counterexample input: both retained
ids are attempted and the successful tenant "b" is the resident one. -/
theorem preload_attempts_all_raises_first_witness :
    keys (preload_courses (mkRAGManager 2) ["a", "b"]
      (fun i => (i == 0, false))).2.rag_instances =
      successes (fun i => (i == 0, false)) ["a", "b"] 0 ∧
    (preload_courses (mkRAGManager 2) ["a", "b"]
      (fun i => (i == 0, false))).2.constructAttempts = ["a", "b"] :=
  ⟨(preload_attempts_all_raises_first 2 ["a", "b"]
      (fun i => (i == 0, false)) (by decide) (by decide)).1,
    (preload_attempts_all_raises_first 2 ["a", "b"]
      (fun i => (i == 0, false)) (by decide) (by decide)).2.1⟩

end ConversationKT
